import Mathlib

/-!
Verification of the AST-metadata extraction subsystem
(`consumer/services/ast_parser/` in the repository).

The Python sources are shallowly embedded as executable Lean definitions:

* tree-sitter syntax nodes become the inductive `TSNode` (a node exposes
  `type`, `text`, `start_point` row and `children`, exactly the interface the
  extractors consume);
* the external tree-sitter grammars are collaborators, modelled as functions
  `String → Except String TSNode` supplied to each extractor (a `.error`
  result models a raised parse exception);
* Python exceptions are modelled with `Except`; the orchestrator's
  `try/except` becomes a `match` on the `Except` value;
* Python `set` accumulation followed by `list(...)` is modelled as
  insertion-ordered duplicate-free accumulation (`add_var`);
* every definition is computable so that concrete runs can be evaluated
  inside proofs.
-/

/-! ## Python string primitives used by the sources -/

/-- The whitespace characters stripped by Python's `str.strip` and matched by
`\s` in its regexes (ASCII range). -/
def py_isspace (c : Char) : Bool :=
  c = ' ' || c = '\t' || c = '\n' || c = '\r' || c = '\x0b' || c = '\x0c'

/-- Right-strip on character lists: drop trailing whitespace. -/
def rstrip_chars (l : List Char) : List Char :=
  (l.reverse.dropWhile py_isspace).reverse

/-- Model of Python `str.strip()`: drop leading and trailing whitespace. -/
def py_strip (s : String) : String :=
  String.mk (rstrip_chars (s.data.dropWhile py_isspace))

/-- Model of Python `str.lower()` (ASCII case folding, applied here only to
file extensions). -/
def py_lower (s : String) : String :=
  String.mk (s.data.map Char.toLower)

/-- Case-sensitive prefix test on character lists (model of `str.startswith`
and of matching a regex literal). -/
def starts_chars : List Char → List Char → Bool
  | [], _ => true
  | _ :: _, [] => false
  | p :: ps, c :: cs => p = c && starts_chars ps cs

/-- Model of Python `prefix in s` / `str.startswith`: `py_startswith s pre`
is true when `s` begins with `pre`. -/
def py_startswith (s pre : String) : Bool :=
  starts_chars pre.data s.data

/-- Substring occurrence test: model of Python's `sub in s`. -/
def contains_chars (p : List Char) : List Char → Bool
  | [] => starts_chars p []
  | c :: cs => starts_chars p (c :: cs) || contains_chars p cs

/-- Case-insensitive prefix test (model of matching a regex literal under
`re.IGNORECASE`). -/
def starts_ci : List Char → List Char → Bool
  | [], _ => true
  | _ :: _, [] => false
  | p :: ps, c :: cs => c.toLower = p.toLower && starts_ci ps cs

/-- Worker for `py_splitlines`: `acc` holds the current line reversed.
A `\r` immediately followed by `\n` counts as a single terminator. -/
def py_splitlines_go : List Char → List Char → List String
  | [], acc => if acc.isEmpty then [] else [String.mk acc.reverse]
  | '\r' :: '\n' :: rest, acc => String.mk acc.reverse :: py_splitlines_go rest []
  | c :: rest, acc =>
    if c = '\n' || c = '\r' || c = '\x0b' || c = '\x0c' then
      String.mk acc.reverse :: py_splitlines_go rest []
    else
      py_splitlines_go rest (c :: acc)

/-- Model of Python `str.splitlines()` (ASCII line terminators: `\n`, `\r`,
`\r\n`, `\x0b`, `\x0c`; no trailing empty line for a trailing terminator). -/
def py_splitlines (s : String) : List String :=
  py_splitlines_go s.data []

/-- Index of the last occurrence of `c` in `cs` (model of `str.rfind`,
`none` standing for Python's `-1`). -/
def last_idx (cs : List Char) (c : Char) : Option Nat :=
  match cs.reverse.findIdx? (· = c) with
  | none => none
  | some i => some (cs.length - 1 - i)

/-- Model of the extension component of `os.path.splitext` (POSIX separator
`/`): the extension starts at the last dot, provided it comes after the last
separator and the base name has a character other than `.` before it. -/
def splitext_ext (p : String) : String :=
  let cs := p.data
  let sepIdx : Int := match last_idx cs '/' with | none => -1 | some i => (i : Int)
  let dotIdx : Int := match last_idx cs '.' with | none => -1 | some i => (i : Int)
  if sepIdx < dotIdx then
    if ((cs.take dotIdx.toNat).drop (sepIdx + 1).toNat).any (fun c => c ≠ '.') then
      String.mk (cs.drop dotIdx.toNat)
    else ""
  else ""

/-! ## Syntax nodes and the tree walker (`utils.py`) -/

/-- A tree-sitter syntax node as consumed by the extractors: `type`, the
verbatim `text` of its span, the 0-based `start_point` row, and its ordered
children. -/
inductive TSNode where
  | node (ty : String) (text : String) (row : Nat) (children : List TSNode)

def TSNode.type : TSNode → String
  | .node t _ _ _ => t

def TSNode.text : TSNode → String
  | .node _ x _ _ => x

/-- `start_point[0]` of a node: the 0-based row where its span starts. -/
def TSNode.start_row : TSNode → Nat
  | .node _ _ r _ => r

def TSNode.children : TSNode → List TSNode
  | .node _ _ _ cs => cs

mutual
/-- `traverse_tree` from `utils.py`: apply the visitor to the node, then
recurse into each child in order.  The Python visitor mutates closed-over
accumulators; here the accumulator is threaded explicitly. -/
def traverse_tree {σ : Type} (visitor_fn : σ → TSNode → σ) (n : TSNode) (s : σ) : σ :=
  match n with
  | .node t x r cs => traverse_children visitor_fn cs (visitor_fn s (.node t x r cs))

/-- The `for child in node.children` loop of `traverse_tree`. -/
def traverse_children {σ : Type} (visitor_fn : σ → TSNode → σ) (l : List TSNode) (s : σ) : σ :=
  match l with
  | [] => s
  | c :: cs => traverse_children visitor_fn cs (traverse_tree visitor_fn c s)
end

mutual
/-- Specification of document order: a node followed by the pre-order
listings of its children, left to right. -/
def preorder : TSNode → List TSNode
  | .node t x r cs => .node t x r cs :: preorder_list cs

def preorder_list : List TSNode → List TSNode
  | [] => []
  | c :: cs => preorder c ++ preorder_list cs
end

mutual
/-- Number of nodes of a tree. -/
def node_count : TSNode → Nat
  | .node _ _ _ cs => 1 + list_count cs

def list_count : List TSNode → Nat
  | [] => 0
  | c :: cs => node_count c + list_count cs
end

/-! ## The data model -/

/-- A Function Record: the dict `{"name": …, "params": …, "start_line": …}`
appended by the extractors.  The universal fallback omits the `start_line`
key, modelled by `none`. -/
structure FunctionRecord where
  name : String
  params : List String
  start_line : Option Nat
deriving DecidableEq, Repr

/-- A Metadata Record `{functions, variables, imports}`.  The Python parsers
return `{}` for blank input; since the orchestrator reads the dict only with
`.get`, the empty dict is observationally the all-empty record. -/
structure Metadata where
  functions : List FunctionRecord := []
  «variables» : List String := []
  imports : List String := []
deriving DecidableEq, Repr

/-- Python `set.add` followed by an eventual `list(...)`: keep first
occurrences in insertion order. -/
def add_var (vs : List String) (v : String) : List String :=
  if v ∈ vs then vs else vs ++ [v]

/-- `list(set(l))` applied to an accumulated list: deduplicate. -/
def dedup_vars (vs : List String) : List String :=
  vs.foldl add_var []

/-! ## Language detector (`language_detector.py`) -/

/-- Result of `detect_language`. -/
structure DetectionResult where
  primary : String
  sub_languages : List String
deriving DecidableEq, Repr

/-- The fixed extension table of `detect_language`. -/
def ext_map : List (String × String) :=
  [(".py", "python"), (".js", "javascript"), (".jsx", "javascript"),
   (".ts", "typescript"), (".tsx", "typescript"), (".html", "html"),
   (".htm", "html"), (".php", "php"), (".java", "java"), (".go", "go"),
   (".rs", "rust"), (".rb", "ruby"), (".swift", "swift"), (".kt", "kotlin"),
   (".scala", "scala"), (".cs", "csharp"), (".c", "c"), (".cpp", "cpp"),
   (".cc", "cpp"), (".cxx", "cpp"), (".h", "c"), (".hpp", "cpp")]

/-- Occurrence of the pattern `<NAME[^>]*>` under `re.IGNORECASE`
(used with `script` and `style`): an occurrence of `<NAME` followed by a `>`
with no earlier `>` in between, i.e. any later `>`. -/
def has_open_tag (name : List Char) : List Char → Bool
  | [] => false
  | c :: cs =>
    (starts_ci ('<' :: name) (c :: cs) && ((c :: cs).drop (name.length + 1)).contains '>')
      || has_open_tag name cs

/-- `detect_language(filename, code)`: extension lookup with `unknown`
default, plus content scans for embedded sub-languages. -/
def detect_language (filename code : String) : DetectionResult :=
  let ext := py_lower (splitext_ext filename)
  let primary := (List.lookup ext ext_map).getD "unknown"
  let sub_languages :=
    if primary = "html" then
      (if has_open_tag "script".data code.data then ["javascript"] else []) ++
      (if has_open_tag "style".data code.data then ["css"] else []) ++
      (if contains_chars "<?php".data code.data then ["php"] else [])
    else if primary = "php" then
      (if contains_chars "<script".data code.data then ["javascript"] else [])
    else []
  { primary := primary, sub_languages := sub_languages }

/-! ## Python extractor (`parsers/python_parser.py`) -/

namespace PythonParser

/-- `_extract_params`: the `identifier` children of `children[2]`. -/
def extract_params (func_node : TSNode) : List String :=
  if func_node.children.length < 3 then []
  else
    match func_node.children[2]? with
    | some params_node =>
      (params_node.children.filter (fun c => c.type = "identifier")).map (fun c => c.text)
    | none => []

/-- The visitor closed over `functions`, `variables`, `imports`. -/
def visitor (acc : Metadata) (node : TSNode) : Metadata :=
  if node.type = "function_definition" then
    if node.children.length > 1 then
      match node.children[1]? with
      | some name_node =>
        { acc with functions := acc.functions ++
            [{ name := name_node.text, params := extract_params node,
               start_line := some (node.start_row + 1) }] }
      | none => acc
    else acc
  else if node.type = "assignment" then
    match node.children[0]? with
    | some c0 =>
      if c0.type = "identifier" then
        { acc with «variables» := add_var acc.variables c0.text }
      else acc
    | none => acc
  else if node.type = "import_statement" || node.type = "import_from_statement" then
    { acc with imports := acc.imports ++ [node.text] }
  else acc

/-- `PythonParser.extract_metadata`, abstracted over the tree-sitter Python
grammar `parse` (a collaborator that may raise). -/
def extract_metadata (parse : String → Except String TSNode) (code : String) :
    Except String Metadata :=
  if py_strip code = "" then .ok {}
  else
    match parse code with
    | .error e => .error e
    | .ok root => .ok (traverse_tree visitor root {})

end PythonParser

/-! ## JavaScript extractor (`parsers/javascript_parser.py`) -/

namespace JavascriptParser

/-- `_collect_param_names`: identifiers and default-valued identifiers of a
`formal_parameters` node. -/
def collect_param_names (params_node : TSNode) : List String :=
  if params_node.type = "formal_parameters" then
    params_node.children.foldl (fun ps child =>
      if child.type = "identifier" then ps ++ [child.text]
      else if child.type = "assignment_pattern" then
        match child.children[0]? with
        | some c0 => if c0.type = "identifier" then ps ++ [c0.text] else ps
        | none => ps
      else ps) []
  else []

/-- `_extract_params`: parameters of a `function_declaration` (index 2). -/
def extract_params (func_node : TSNode) : List String :=
  if func_node.children.length < 3 then []
  else
    match func_node.children[2]? with
    | some params_node => collect_param_names params_node
    | none => []

/-- `_extract_arrow_params`: parameters of an `arrow_function` (index 0). -/
def extract_arrow_params (arrow_node : TSNode) : List String :=
  if arrow_node.children.length = 0 then []
  else
    match arrow_node.children[0]? with
    | some params_node => collect_param_names params_node
    | none => []

/-- The visitor.  Note: the source has two `elif node.type ==
"variable_declarator"` branches in a row; the second one (which would record
plain variables) repeats the first branch's condition and is therefore
unreachable.  The embedding reproduces both branches as written. -/
def visitor (acc : Metadata) (node : TSNode) : Metadata :=
  if node.type = "function_declaration" then
    if node.children.length > 1 then
      match node.children[1]? with
      | some name_node =>
        if name_node.type = "identifier" then
          { acc with functions := acc.functions ++
              [{ name := name_node.text, params := extract_params node,
                 start_line := some (node.start_row + 1) }] }
        else acc
      | none => acc
    else acc
  else if node.type = "variable_declarator" then
    if node.children.length ≥ 2 then
      match node.children[0]?, node.children[1]? with
      | some name_node, some value_node =>
        if name_node.type = "identifier" && value_node.type = "arrow_function" then
          { acc with functions := acc.functions ++
              [{ name := name_node.text, params := extract_arrow_params value_node,
                 start_line := some (node.start_row + 1) }] }
        else acc
      | _, _ => acc
    else acc
  else if node.type = "variable_declarator" then
    match node.children[0]? with
    | some c0 =>
      if c0.type = "identifier" then
        { acc with «variables» := add_var acc.variables c0.text }
      else acc
    | none => acc
  else if node.type = "import_statement" then
    { acc with imports := acc.imports ++ [node.text] }
  else acc

/-- `JavascriptParser.extract_metadata`, abstracted over the tree-sitter
JavaScript grammar. -/
def extract_metadata (parse : String → Except String TSNode) (code : String) :
    Except String Metadata :=
  if py_strip code = "" then .ok {}
  else
    match parse code with
    | .error e => .error e
    | .ok root => .ok (traverse_tree visitor root {})

end JavascriptParser

/-! ## PHP extractor (`parsers/php_parser.py`) -/

namespace PHPParser

/-- `_extract_params`: for each `parameter_declaration` child of
`children[2]`, the first `variable_name` sub-child. -/
def extract_params (func_node : TSNode) : List String :=
  if func_node.children.length < 3 then []
  else
    match func_node.children[2]? with
    | some params_node =>
      params_node.children.foldl (fun ps child =>
        if child.type = "parameter_declaration" then
          match child.children.find? (fun sub => sub.type = "variable_name") with
          | some sub => ps ++ [sub.text]
          | none => ps
        else ps) []
    | none => []

/-- The visitor. -/
def visitor (acc : Metadata) (node : TSNode) : Metadata :=
  if node.type = "function_definition" then
    if node.children.length > 1 then
      match node.children[1]? with
      | some name_node =>
        if name_node.type = "name" then
          { acc with functions := acc.functions ++
              [{ name := name_node.text, params := extract_params node,
                 start_line := some (node.start_row + 1) }] }
        else acc
      | none => acc
    else acc
  else if node.type = "assignment_expression" then
    match node.children[0]? with
    | some left =>
      if left.type = "variable_name" then
        { acc with «variables» := add_var acc.variables left.text }
      else acc
    | none => acc
  else if node.type = "use_declaration" then
    { acc with imports := acc.imports ++ [node.text] }
  else acc

/-- `PHPParser.extract_metadata`: prepends `<?php\n` when the stripped code
does not start with the opening tag, then parses the (possibly prepended)
text and walks it. -/
def extract_metadata (parse : String → Except String TSNode) (code : String) :
    Except String Metadata :=
  if py_strip code = "" then .ok {}
  else
    let code := if py_startswith (py_strip code) "<?php" then code else "<?php\n" ++ code
    match parse code with
    | .error e => .error e
    | .ok root => .ok (traverse_tree visitor root {})

end PHPParser

/-! ## C/C++ extractor (`parsers/cpp_parser.py`) -/

namespace CPPParser

mutual
/-- `_find_identifier_in_node`: depth-first search for the first
`identifier`. -/
def find_identifier_in_node (n : TSNode) : Option String :=
  match n with
  | .node t x _ cs => if t = "identifier" then some x else find_identifier_in_list cs

def find_identifier_in_list (l : List TSNode) : Option String :=
  match l with
  | [] => none
  | c :: cs =>
    match find_identifier_in_node c with
    | some s => some s
    | none => find_identifier_in_list cs
end

/-- `_extract_parameters`: names of the `parameter_declaration` children
(first identifier inside each), plus direct `identifier` children. -/
def extract_parameters (param_list_node : TSNode) : List String :=
  param_list_node.children.foldl (fun ps child =>
    if child.type = "parameter_declaration" then
      match find_identifier_in_node child with
      | some nm => ps ++ [nm]
      | none => ps
    else if child.type = "identifier" then ps ++ [child.text]
    else ps) []

/-- `_extract_function_info`: locate the (operator-)function declarator,
take its last `identifier` child as the name and its `parameter_list` child
for parameters. -/
def extract_function_info (node : TSNode) : Option FunctionRecord :=
  match node.children.find? (fun c =>
      c.type = "function_declarator" || c.type = "operator_function_declarator") with
  | none => none
  | some declarator =>
    let st := declarator.children.foldl
      (fun (st : Option String × List String) child =>
        if child.type = "identifier" then (some child.text, st.2)
        else if child.type = "parameter_list" then (st.1, extract_parameters child)
        else st) (none, [])
    match st.1 with
    | none => none
    | some nm => some { name := nm, params := st.2, start_line := some (node.start_row + 1) }

/-- `_extract_variable_name`: unwrap an `init_declarator` to its bound
identifier, through one pointer- or reference-declarator level. -/
def extract_variable_name (init_declarator_node : TSNode) : Option String :=
  match init_declarator_node.children[0]? with
  | none => none
  | some declarator =>
    if declarator.type = "identifier" then some declarator.text
    else if declarator.type = "pointer_declarator" && declarator.children.length > 0 then
      match declarator.children.find? (fun c => c.type = "identifier") with
      | some c => some c.text
      | none => none
    else if declarator.type = "reference_declarator" && declarator.children.length > 0 then
      match declarator.children.find? (fun c => c.type = "identifier") with
      | some c => some c.text
      | none => none
    else none

/-- The visitor. -/
def visitor (acc : Metadata) (node : TSNode) : Metadata :=
  if node.type = "function_definition" || node.type = "method_definition" then
    match extract_function_info node with
    | some info => { acc with functions := acc.functions ++ [info] }
    | none => acc
  else if node.type = "declaration" then
    node.children.foldl (fun acc child =>
      if child.type = "init_declarator" then
        match extract_variable_name child with
        | some nm => { acc with «variables» := add_var acc.variables nm }
        | none => acc
      else if child.type = "identifier" then
        { acc with «variables» := add_var acc.variables child.text }
      else acc) acc
  else if node.type = "preproc_include" then
    { acc with imports := acc.imports ++ [node.text] }
  else acc

/-- `CPPParser.extract_metadata` (its `includes` list is returned under the
`imports` key). -/
def extract_metadata (parse : String → Except String TSNode) (code : String) :
    Except String Metadata :=
  if py_strip code = "" then .ok {}
  else
    match parse code with
    | .error e => .error e
    | .ok root => .ok (traverse_tree visitor root {})

end CPPParser

/-! ## Universal fallback extractor (`parsers/universal_parser.py`)

The line-oriented regexes are modelled as deterministic matchers; each one is
an exact reading of the corresponding pattern (all patterns are anchored with
`^`, so `re.search` matches at the line start only; adjacent subpatterns
consume disjoint character classes, so greedy matching needs no
backtracking, except for the final `[^=]` of the assignment pattern, which is
resolved below). -/

namespace UniversalParser

/-- `[a-zA-Z_]`. -/
def is_ident_start (c : Char) : Bool := c.isAlpha || c = '_'

/-- `\w` (ASCII). -/
def is_word_char (c : Char) : Bool := c.isAlphanum || c = '_'

/-- Consume a literal. -/
def lit_chars : List Char → List Char → Option (List Char)
  | [], cs => some cs
  | _ :: _, [] => none
  | p :: ps, c :: cs => if p = c then lit_chars ps cs else none

/-- Consume `\s+`. -/
def ws_plus (cs : List Char) : Option (List Char) :=
  match cs with
  | c :: rest => if py_isspace c then some (rest.dropWhile py_isspace) else none
  | [] => none

/-- Consume `([a-zA-Z_]\w*)`, returning the captured identifier. -/
def grab_ident (cs : List Char) : Option (String × List Char) :=
  match cs with
  | c :: rest =>
    if is_ident_start c then
      some (String.mk (c :: rest.takeWhile is_word_char), rest.dropWhile is_word_char)
    else none
  | [] => none

/-- `^\s*KW\s+([a-zA-Z_]\w*)` (the `def`, `function`, `func` patterns). -/
def match_kw_ident (kw : String) (line : List Char) : Option String := do
  let cs := line.dropWhile py_isspace
  let cs ← lit_chars kw.data cs
  let cs ← ws_plus cs
  let (name, _) ← grab_ident cs
  pure name

/-- `^\s*KW\s+([a-zA-Z_]\w*)\s*=\s*function\b` (the `const`/`let` function
patterns); the trailing `\b` demands a non-word character or the line end. -/
def match_const_fn (kw : String) (line : List Char) : Option String := do
  let cs := line.dropWhile py_isspace
  let cs ← lit_chars kw.data cs
  let cs ← ws_plus cs
  let (name, cs) ← grab_ident cs
  let cs := cs.dropWhile py_isspace
  let cs ← lit_chars ['='] cs
  let cs := cs.dropWhile py_isspace
  let cs ← lit_chars "function".data cs
  match cs with
  | [] => pure name
  | c :: _ => if is_word_char c then none else pure name

/-- `^\s*VIS\s+function\s+([a-zA-Z_]\w*)` (the `public`/`private`/`protected`
method patterns). -/
def match_vis_fn (vis : String) (line : List Char) : Option String := do
  let cs := line.dropWhile py_isspace
  let cs ← lit_chars vis.data cs
  let cs ← ws_plus cs
  let cs ← lit_chars "function".data cs
  let cs ← ws_plus cs
  let (name, _) ← grab_ident cs
  pure name

/-- The ordered `func_patterns` list; the first matching pattern wins. -/
def func_name_of_line (line : List Char) : Option String :=
  (match_kw_ident "def" line) <|>
  (match_kw_ident "function" line) <|>
  (match_const_fn "const" line) <|>
  (match_const_fn "let" line) <|>
  (match_kw_ident "func" line) <|>
  (match_vis_fn "public" line) <|>
  (match_vis_fn "private" line) <|>
  (match_vis_fn "protected" line)

/-- `^\s*([a-zA-Z_]\w*)\s*[+\-*/]?=\s*[^=]`: after the `=`, the greedy `\s*`
backtracks until `[^=]` can match, so the tail only needs to be non-empty and
not start with `=` (a whitespace head itself satisfies `[^=]`). -/
def match_assign (line : List Char) : Option String := do
  let cs := line.dropWhile py_isspace
  let (name, cs) ← grab_ident cs
  let cs := cs.dropWhile py_isspace
  let t ← match cs with
    | c :: rest =>
      if c = '+' || c = '-' || c = '*' || c = '/' then
        match rest with
        | '=' :: t => some t
        | _ => none
      else if c = '=' then some rest
      else none
    | [] => none
  match t with
  | [] => none
  | c :: _ => if c = '=' then none else pure name

/-- The `import_keywords` list. -/
def import_keywords : List String :=
  ["import", "require", "include", "using", "from", "require_once"]

/-- The `for line in lines` function loop: append a parameterless record for
every line matched by some pattern. -/
def scan_functions (lines : List (List Char)) : List FunctionRecord :=
  lines.foldl (fun fs line =>
    match func_name_of_line line with
    | some nm => fs ++ [{ name := nm, params := [], start_line := none }]
    | none => fs) []

/-- The assignment loop: a `set` of matched left-hand-side names. -/
def scan_variables (lines : List (List Char)) : List String :=
  lines.foldl (fun vs line =>
    match match_assign line with
    | some nm => add_var vs nm
    | none => vs) []

/-- The import loop: stripped lines beginning with an import keyword. -/
def scan_imports (lines : List (List Char)) : List String :=
  lines.foldl (fun ims line =>
    let ls := py_strip (String.mk line)
    if import_keywords.any (fun kw => py_startswith ls kw) then ims ++ [ls] else ims) []

/-- `UniversalParser.extract_metadata`: three line-oriented scans over
`code.splitlines()`, then the fallback's own truncation to 5 functions,
10 variables, 5 imports. -/
def extract_metadata (code : String) : Metadata :=
  { functions := (scan_functions ((py_splitlines code).map String.data)).take 5,
    «variables» := (scan_variables ((py_splitlines code).map String.data)).take 10,
    imports := (scan_imports ((py_splitlines code).map String.data)).take 5 }

end UniversalParser

/-! ## HTML extractor (`parsers/html_parser.py`)

`_extract_script_blocks` uses
`re.findall(r'<script(?!\s*src\s*=)[^>]*>(.*?)</script>', html, DOTALL | IGNORECASE)`.
A match starts at an occurrence of `<script` not immediately followed (modulo
whitespace) by `src` `=`; `[^>]*>` then reaches exactly the first following
`>`, and the lazy `(.*?)</script>` captures up to the first following
`</script>`.  On failure the scan advances one character; after a match it
resumes after the closing tag.  The scanner below follows these semantics
with a fuel argument (initially the input length) so that it stays
structurally recursive; every step consumes at least one character, so the
fuel never runs out (`scan_go_fuel_irrelevant` below certifies this). -/

namespace HTMLParser

/-- The negative lookahead body `\s*src\s*=` (case-insensitive). -/
def lookahead_src (cs : List Char) : Bool :=
  let cs1 := cs.dropWhile py_isspace
  if starts_ci "src".data cs1 then
    match (cs1.drop 3).dropWhile py_isspace with
    | '=' :: _ => true
    | _ => false
  else false

/-- `[^>]*>`: the remainder after the first `>`, if any. -/
def split_first_gt (cs : List Char) : Option (List Char) :=
  match cs.dropWhile (fun c => c ≠ '>') with
  | _ :: rest => some rest
  | [] => none

/-- `(.*?)</script>`:  the lazily captured content up to the first
case-insensitive `</script>`, and the remainder after it. -/
def find_close : List Char → List Char → Option (List Char × List Char)
  | [], _ => none
  | c :: rest, acc =>
    if starts_ci "</script>".data (c :: rest) then
      some (acc.reverse, (c :: rest).drop 9)
    else find_close rest (c :: acc)

/-- One `re.findall` scan (fuel-indexed; see the section comment). -/
def scan_go : Nat → List Char → List String
  | 0, _ => []
  | _ + 1, [] => []
  | fuel + 1, c :: rest =>
    if starts_ci "<script".data (c :: rest) then
      if lookahead_src ((c :: rest).drop 7) then scan_go fuel rest
      else
        match split_first_gt ((c :: rest).drop 7) with
        | none => scan_go fuel rest
        | some afterGt =>
          match find_close afterGt [] with
          | none => scan_go fuel rest
          | some (content, afterClose) => String.mk content :: scan_go fuel afterClose
    else scan_go fuel rest

/-- `_extract_script_blocks`: all captured blocks, stripped, blanks
dropped. -/
def extract_script_blocks (html : String) : List String :=
  ((scan_go html.data.length html.data).map py_strip).filter (fun b => b ≠ "")

/-- The per-block loop of `HTMLParser.extract_metadata`: blocks whose
JavaScript extraction raises are skipped (`except Exception: continue`). -/
def merge_block (parse : String → Except String TSNode) (m : Metadata) (block : String) :
    Metadata :=
  match JavascriptParser.extract_metadata parse block with
  | .ok js_meta =>
    { functions := m.functions ++ js_meta.functions,
      «variables» := m.variables ++ js_meta.variables,
      imports := m.imports ++ js_meta.imports }
  | .error _ => m

/-- `HTMLParser.extract_metadata`: run the JavaScript extractor over every
inline script block, merge, then deduplicate the variables. -/
def extract_metadata (parse : String → Except String TSNode) (code : String) :
    Except String Metadata :=
  let m := (extract_script_blocks code).foldl (merge_block parse) {}
  .ok { m with «variables» := dedup_vars m.variables }

end HTMLParser

/-! ## Dispatch orchestrator (`parser.py`) -/

/-- The bundle of tree-sitter grammar collaborators held by the five
grammar-based extractor classes (the HTML extractor's own HTML grammar is
constructed but never used by `extract_metadata`, so it is not modelled). -/
structure Grammars where
  pyParse : String → Except String TSNode
  jsParse : String → Except String TSNode
  phpParse : String → Except String TSNode
  cppParse : String → Except String TSNode

/-- The extractor classes `_get_parser` can instantiate. -/
inductive ParserKind where
  | python | javascript | html | php | cpp | universal
deriving DecidableEq, Repr

/-- `_get_parser`: the direct language-to-extractor mapping with the
universal fallback default (`"c"` reuses the C++ extractor). -/
def getParser (language : String) : ParserKind :=
  if language = "python" then .python
  else if language = "javascript" then .javascript
  else if language = "html" then .html
  else if language = "php" then .php
  else if language = "cpp" then .cpp
  else if language = "c" then .cpp
  else .universal

/-- `parser.extract_metadata(code)` for the selected extractor. -/
def run_extract (g : Grammars) : ParserKind → String → Except String Metadata
  | .python, code => PythonParser.extract_metadata g.pyParse code
  | .javascript, code => JavascriptParser.extract_metadata g.jsParse code
  | .html, code => HTMLParser.extract_metadata g.jsParse code
  | .php, code => PHPParser.extract_metadata g.phpParse code
  | .cpp, code => CPPParser.extract_metadata g.cppParse code
  | .universal, code => .ok (UniversalParser.extract_metadata code)

/-- The `parts` list built by `parse_ast`: one segment per non-empty
category, truncated to 10 / 15 / 10 entries at format time. -/
def segs (m : Metadata) : List String :=
  (if m.functions.isEmpty then [] else
    ["Functions: " ++ String.intercalate ", " ((m.functions.take 10).map (fun f => f.name))]) ++
  (if m.variables.isEmpty then [] else
    ["Variables: " ++ String.intercalate ", " (m.variables.take 15)]) ++
  (if m.imports.isEmpty then [] else
    ["Imports: " ++ String.intercalate ", " (m.imports.take 10)])

/-- The formatting tail of `parse_ast`: empty when no category has content,
otherwise the `[AST] `-prefixed ` | `-joined segments. -/
def format_summary (m : Metadata) : String :=
  if segs m = [] then "" else "[AST] " ++ String.intercalate " | " (segs m)

/-- The body of `parse_ast`'s `try` block up to the Metadata Record:
detection, dispatch, extraction. -/
def parse_ast_meta (g : Grammars) (code filename : String) : Except String Metadata :=
  let lang_info := detect_language filename code
  run_extract g (getParser lang_info.primary) code

/-- `parse_ast(code, filename)`, the public entry point: any exception from
detection, dispatch or extraction is caught and yields `""`. -/
def parse_ast (g : Grammars) (code filename : String) : String :=
  match parse_ast_meta g code filename with
  | .ok metadata => format_summary metadata
  | .error _ => ""

/-! ## Per-block contribution views and demo collaborators -/

/-- Functions contributed by one inline block (nothing on failure). -/
def js_ok_functions (parse : String → Except String TSNode) (b : String) :
    List FunctionRecord :=
  match JavascriptParser.extract_metadata parse b with
  | .ok m => m.functions
  | .error _ => []

/-- Variables contributed by one inline block (nothing on failure). -/
def js_ok_variables (parse : String → Except String TSNode) (b : String) : List String :=
  match JavascriptParser.extract_metadata parse b with
  | .ok m => m.variables
  | .error _ => []

/-- Imports contributed by one inline block (nothing on failure). -/
def js_ok_imports (parse : String → Except String TSNode) (b : String) : List String :=
  match JavascriptParser.extract_metadata parse b with
  | .ok m => m.imports
  | .error _ => []

/-- A grammar collaborator that always raises (models a parse failure). -/
def err_parse : String → Except String TSNode := fun _ => .error "parse error"

/-- A grammar bundle whose every collaborator raises. -/
def err_grammars : Grammars := ⟨err_parse, err_parse, err_parse, err_parse⟩

/-- A trivial collaborator returning a childless `program` root. -/
def leaf_parse : String → Except String TSNode :=
  fun _ => .ok (TSNode.node "program" "" 0 [])

/-- Modelled from the spec: the tree-sitter PHP grammar collaborator (an
external capability, absent from the repository) applied to the two-line
text `"<?php\nfunction foo() {}"` that the extractor builds by prepending
the tag.  Per the spec's collaborator interface, each node exposes its
`type`, the verbatim `text` of its span, and a 0-based `start_point` row
within the parsed text: the `function_definition` spans row 1, its children
being the `function` keyword, the `name`, the `formal_parameters` and the
`compound_statement`. -/
def php_demo_parse : String → Except String TSNode := fun _ =>
  .ok (TSNode.node "program" "<?php\nfunction foo() \x7b\x7d" 0
    [TSNode.node "php_tag" "<?php" 0 [],
     TSNode.node "function_definition" "function foo() \x7b\x7d" 1
       [TSNode.node "function" "function" 1 [],
        TSNode.node "name" "foo" 1 [],
        TSNode.node "formal_parameters" "()" 1 [],
        TSNode.node "compound_statement" "\x7b\x7d" 1 []]])

/-- The grammar bundle holding the modelled PHP collaborator. -/
def php_demo_grammars : Grammars := ⟨err_parse, err_parse, php_demo_parse, err_parse⟩

/-- Modelled from the spec: the tree-sitter Python grammar collaborator (an
external capability, absent from the repository) applied to the two-line
source `"from m import (\n a)"`: a `module` root containing one
`import_from_statement` whose `text` is the full verbatim source span of
the statement — here spanning two lines, as the spec's extraction rule
("record the full verbatim source span") prescribes. -/
def py_demo_parse : String → Except String TSNode := fun _ =>
  .ok (TSNode.node "module" "from m import (\n a)" 0
    [TSNode.node "import_from_statement" "from m import (\n a)" 0
       [TSNode.node "from" "from" 0 [],
        TSNode.node "dotted_name" "m" 0 []]])

/-- The grammar bundle holding the modelled Python collaborator. -/
def py_demo_grammars : Grammars := ⟨py_demo_parse, err_parse, err_parse, err_parse⟩

/-! ## Helper lemmas: the tree walker -/

mutual
theorem traverse_tree_eq_foldl {σ : Type} (f : σ → TSNode → σ) (n : TSNode) (s : σ) :
    traverse_tree f n s = (preorder n).foldl f s := by
  cases n with
  | node t x r cs =>
    rw [traverse_tree, preorder]
    simp only [List.foldl_cons]
    exact traverse_children_eq_foldl f cs (f s (TSNode.node t x r cs))

theorem traverse_children_eq_foldl {σ : Type} (f : σ → TSNode → σ) (l : List TSNode) (s : σ) :
    traverse_children f l s = (preorder_list l).foldl f s := by
  cases l with
  | nil => rw [traverse_children, preorder_list]; rfl
  | cons c cs =>
    rw [traverse_children, preorder_list, List.foldl_append, traverse_tree_eq_foldl,
      traverse_children_eq_foldl]
end

mutual
theorem preorder_length (n : TSNode) : (preorder n).length = node_count n := by
  cases n with
  | node t x r cs =>
    rw [preorder, node_count, List.length_cons, preorder_list_length, Nat.add_comm]

theorem preorder_list_length (l : List TSNode) : (preorder_list l).length = list_count l := by
  cases l with
  | nil => rw [preorder_list, list_count]; rfl
  | cons c cs =>
    rw [preorder_list, list_count, List.length_append, preorder_length, preorder_list_length]
end

/-- A fold by a step function that preserves a property preserves it
globally. -/
theorem foldl_preserves {α σ : Type} {P : σ → Prop} (f : σ → α → σ)
    (hf : ∀ s a, P s → P (f s a)) :
    ∀ (l : List α) (s : σ), P s → P (l.foldl f s) := by
  intro l
  induction l with
  | nil => intro s hs; exact hs
  | cons c cs ih => intro s hs; exact ih (f s c) (hf s c hs)

/-- A fold whose step ignores every element of the list is the identity. -/
theorem foldl_id {α σ : Type} (f : σ → α → σ) (l : List α)
    (h : ∀ a ∈ l, ∀ s, f s a = s) : ∀ s, l.foldl f s = s := by
  induction l with
  | nil => intro s; rfl
  | cons c cs ih =>
    intro s
    rw [List.foldl_cons, h c (List.mem_cons_self c cs)]
    exact ih (fun a ha s => h a (List.mem_cons_of_mem c ha) s) s

/-! ## Helper lemmas: the JavaScript extractor records no variables -/

/-- The second `variable_declarator` branch of the JavaScript visitor is
dead, so no branch of the visitor changes `variables`. -/
theorem js_visitor_variables (acc : Metadata) (n : TSNode) :
    (JavascriptParser.visitor acc n).variables = acc.variables := by
  unfold JavascriptParser.visitor
  split_ifs <;> (try rfl) <;> (repeat' split) <;> rfl

/-- A successful JavaScript extraction has an empty `variables` list. -/
theorem js_extract_variables (parse : String → Except String TSNode) (code : String)
    (m : Metadata) (h : JavascriptParser.extract_metadata parse code = .ok m) :
    m.variables = [] := by
  unfold JavascriptParser.extract_metadata at h
  split at h
  · cases h; rfl
  · cases hp : parse code with
    | error e => rw [hp] at h; cases h
    | ok root =>
      rw [hp] at h
      cases h
      rw [traverse_tree_eq_foldl]
      exact @foldl_preserves TSNode Metadata (fun s => s.variables = [])
        JavascriptParser.visitor
        (fun s n hs => by
          show (JavascriptParser.visitor s n).variables = []
          rw [js_visitor_variables]; exact hs) (preorder root) {} rfl

/-- A successful HTML extraction has an empty `variables` list: every block's
JavaScript extraction contributes an empty list. -/
theorem html_extract_variables (parse : String → Except String TSNode) (code : String)
    (m : Metadata) (h : HTMLParser.extract_metadata parse code = .ok m) :
    m.variables = [] := by
  unfold HTMLParser.extract_metadata at h
  cases h
  show dedup_vars (List.foldl (HTMLParser.merge_block parse) {}
    (HTMLParser.extract_script_blocks code)).variables = []
  have : (List.foldl (HTMLParser.merge_block parse) {}
      (HTMLParser.extract_script_blocks code)).variables = [] := by
    refine @foldl_preserves String Metadata (fun s => s.variables = [])
      (HTMLParser.merge_block parse) ?_ _ {} rfl
    intro s b hs
    unfold HTMLParser.merge_block
    cases hjs : JavascriptParser.extract_metadata parse b with
    | error e => exact hs
    | ok js_meta =>
      show (s.variables ++ js_meta.variables) = []
      rw [js_extract_variables parse b js_meta hjs, hs]
      rfl
  rw [this]
  rfl

/-! ## Helper lemmas: whitespace-only input -/

theorem py_strip_of_all_ws (s : String) (h : ∀ c ∈ s.data, py_isspace c = true) :
    py_strip s = "" := by
  unfold py_strip rstrip_chars
  rw [List.dropWhile_eq_nil_iff.mpr h]
  rfl

/-- Lines split out of all-whitespace text are all-whitespace. -/
theorem py_splitlines_go_ws :
    ∀ (N : Nat) (cs acc : List Char), cs.length ≤ N →
      (∀ c ∈ cs, py_isspace c = true) → (∀ c ∈ acc, py_isspace c = true) →
      ∀ line ∈ py_splitlines_go cs acc, ∀ c ∈ line.data, py_isspace c = true := by
  intro N
  induction N with
  | zero =>
    intro cs acc hlen hcs hacc line hline
    have hnil : cs = [] := List.length_eq_zero.mp (Nat.le_zero.mp hlen)
    subst hnil
    rw [py_splitlines_go.eq_1] at hline
    split at hline
    · cases hline
    · have h := List.mem_singleton.mp hline
      subst h; intro ch hch; exact hacc ch (List.mem_reverse.mp hch)
  | succ N ih =>
    intro cs acc hlen hcs hacc line hline
    rcases cs with _ | ⟨c, rest⟩
    · rw [py_splitlines_go.eq_1] at hline
      split at hline
      · cases hline
      · have h := List.mem_singleton.mp hline
        subst h; intro ch hch; exact hacc ch (List.mem_reverse.mp hch)
    · by_cases hcase : c = '\r' ∧ ∃ rest2, rest = '\n' :: rest2
      · obtain ⟨hc, rest2, hrest⟩ := hcase
        subst hc; subst hrest
        rw [py_splitlines_go.eq_2] at hline
        rcases List.mem_cons.mp hline with h | h
        · subst h; intro ch hch; exact hacc ch (List.mem_reverse.mp hch)
        · refine ih rest2 [] ?_ ?_ ?_ line h
          · simp only [List.length_cons] at hlen; omega
          · intro ch hch
            exact hcs ch (List.mem_cons_of_mem _ (List.mem_cons_of_mem _ hch))
          · intro ch hch; cases hch
      · have hside : ∀ (r1 : List Char), c = '\r' → rest = '\n' :: r1 → False := by
          intro r1 h1 h2; exact hcase ⟨h1, r1, h2⟩
        rw [py_splitlines_go.eq_3 acc c rest hside] at hline
        have hrest_len : rest.length ≤ N := by
          simp only [List.length_cons] at hlen; omega
        have hrest_ws : ∀ ch ∈ rest, py_isspace ch = true :=
          fun ch hch => hcs ch (List.mem_cons_of_mem c hch)
        split at hline
        · rcases List.mem_cons.mp hline with h | h
          · subst h; intro ch hch; exact hacc ch (List.mem_reverse.mp hch)
          · exact ih rest [] hrest_len hrest_ws
              (fun ch hch => absurd hch (List.not_mem_nil ch)) line h
        · refine ih rest (c :: acc) hrest_len hrest_ws ?_ line hline
          intro ch hch
          rcases List.mem_cons.mp hch with h | h
          · subst h; exact hcs ch (List.mem_cons_self ch rest)
          · exact hacc ch h

theorem func_name_ws (line : List Char) (h : line.dropWhile py_isspace = []) :
    UniversalParser.func_name_of_line line = none := by
  unfold UniversalParser.func_name_of_line UniversalParser.match_kw_ident
    UniversalParser.match_const_fn UniversalParser.match_vis_fn
  rw [h]
  rfl

theorem match_assign_ws (line : List Char) (h : line.dropWhile py_isspace = []) :
    UniversalParser.match_assign line = none := by
  unfold UniversalParser.match_assign
  rw [h]
  rfl

/-- The universal fallback yields the empty record on all-whitespace text. -/
theorem universal_ws (code : String) (h : ∀ c ∈ code.data, py_isspace c = true) :
    UniversalParser.extract_metadata code = {} := by
  have hlines : ∀ line ∈ (py_splitlines code).map String.data,
      (∀ c ∈ line, py_isspace c = true) := by
    intro line hline
    rcases List.mem_map.mp hline with ⟨l, hl, rfl⟩
    exact py_splitlines_go_ws code.data.length code.data [] le_rfl h
      (fun c hc => absurd hc (List.not_mem_nil c)) l hl
  unfold UniversalParser.extract_metadata UniversalParser.scan_functions
    UniversalParser.scan_variables UniversalParser.scan_imports
  rw [foldl_id _ _ (fun line hl s => by
      rw [func_name_ws line (List.dropWhile_eq_nil_iff.mpr (hlines line hl))]),
    foldl_id _ _ (fun line hl s => by
      rw [match_assign_ws line (List.dropWhile_eq_nil_iff.mpr (hlines line hl))]),
    foldl_id _ _ (fun line hl s => by
      rw [py_strip_of_all_ws (String.mk line) (hlines line hl)]
      rfl)]
  rfl

theorem starts_ci_cons_false (p : Char) (ps : List Char) (c : Char) (cs : List Char)
    (h : ¬ c.toLower = p.toLower) : starts_ci (p :: ps) (c :: cs) = false := by
  simp [starts_ci, h]

/-- The script-block scan finds nothing in all-whitespace text. -/
theorem ws_scan_go (fuel : Nat) :
    ∀ cs : List Char, (∀ c ∈ cs, py_isspace c = true) → HTMLParser.scan_go fuel cs = [] := by
  induction fuel with
  | zero => intro cs _; rfl
  | succ fuel ih =>
    intro cs h
    rcases cs with _ | ⟨c, rest⟩
    · rfl
    · have hc := h c (List.mem_cons_self c rest)
      have hlow : ¬ c.toLower = '<'.toLower := by
        simp only [py_isspace, Bool.or_eq_true, decide_eq_true_eq] at hc
        rcases hc with ((((rfl | rfl) | rfl) | rfl) | rfl) | rfl <;> decide
      have hsc : starts_ci "<script".data (c :: rest) = false :=
        starts_ci_cons_false '<' "script".data c rest hlow
      simp only [HTMLParser.scan_go]
      rw [if_neg (by simp only [hsc]; exact Bool.false_ne_true)]
      exact ih rest (fun x hx => h x (List.mem_cons_of_mem c hx))

/-- Every extractor returns the empty Metadata Record on all-whitespace
input (the grammar-based ones without consulting their grammar). -/
theorem run_extract_ws (g : Grammars) (k : ParserKind) (code : String)
    (h : ∀ c ∈ code.data, py_isspace c = true) :
    run_extract g k code = .ok {} := by
  have hstrip : py_strip code = "" := py_strip_of_all_ws code h
  cases k with
  | python => simp [run_extract, PythonParser.extract_metadata, hstrip]
  | javascript => simp [run_extract, JavascriptParser.extract_metadata, hstrip]
  | php => simp [run_extract, PHPParser.extract_metadata, hstrip]
  | cpp => simp [run_extract, CPPParser.extract_metadata, hstrip]
  | universal => simp [run_extract, universal_ws code h]
  | html =>
    simp only [run_extract, HTMLParser.extract_metadata, HTMLParser.extract_script_blocks,
      ws_scan_go code.data.length code.data h]
    rfl

/-! ## Helper lemmas: the PHP opening-tag prepend -/

theorem dropWhile_append_if {α : Type} [DecidableEq α] (p : α → Bool) (l₁ l₂ : List α) :
    List.dropWhile p (l₁ ++ l₂) =
      if List.dropWhile p l₁ = [] then List.dropWhile p l₂
      else List.dropWhile p l₁ ++ l₂ := by
  induction l₁ with
  | nil => simp
  | cons c t ih =>
    by_cases hc : p c
    · simp only [List.cons_append, List.dropWhile_cons, hc, if_true, ih]
    · simp only [List.cons_append, List.dropWhile_cons, hc, Bool.false_eq_true, if_false,
        List.cons_ne_nil]

theorem starts_chars_append (pre t : List Char) : starts_chars pre (pre ++ t) = true := by
  induction pre with
  | nil => rfl
  | cons c cs ih => simp [starts_chars, ih]

/-- Stripping `"<?php\n" ++ code` keeps the `<?php` head. -/
theorem php_strip_prepend (code : String) :
    ∃ t : List Char, py_strip ("<?php\n" ++ code) = String.mk ("<?php".data ++ t) := by
  unfold py_strip rstrip_chars
  rw [String.data_append]
  rw [show ("<?php\n" : String).data ++ code.data
      = "<?php".data ++ ('\n' :: code.data) from rfl]
  rw [show ("<?php".data ++ ('\n' :: code.data))
      = '<' :: ("?php".data ++ ('\n' :: code.data)) from rfl]
  rw [List.dropWhile_cons]
  have hlt : py_isspace '<' = false := by decide
  rw [hlt]
  simp only [Bool.false_eq_true, if_false]
  rw [show ('<' : Char) :: ("?php".data ++ ('\n' :: code.data))
      = "<?php".data ++ ('\n' :: code.data) from rfl]
  rw [List.reverse_append, dropWhile_append_if]
  split
  · refine ⟨[], ?_⟩
    rw [show (List.dropWhile py_isspace ("<?php".data).reverse) = ("<?php".data).reverse from by
      decide]
    rw [List.reverse_reverse, List.append_nil]
  · refine ⟨(List.dropWhile py_isspace ('\n' :: code.data).reverse).reverse, ?_⟩
    rw [List.reverse_append, List.reverse_reverse]

theorem php_prepend_startswith (code : String) :
    py_startswith (py_strip ("<?php\n" ++ code)) "<?php" = true := by
  obtain ⟨t, ht⟩ := php_strip_prepend code
  rw [ht]
  exact starts_chars_append "<?php".data t

theorem php_prepend_nonempty (code : String) :
    ¬ py_strip ("<?php\n" ++ code) = "" := by
  obtain ⟨t, ht⟩ := php_strip_prepend code
  rw [ht]
  intro hcon
  have hd := congrArg String.data hcon
  simp at hd

/-- When the opening tag is missing, PHP extraction equals extraction on the
prepended text: the latter takes the no-prepend branch and parses the same
string, so every reported `start_line` is a line number of the prepended
text. -/
theorem php_extract_prepend (parse : String → Except String TSNode) (code : String)
    (hne : ¬ py_strip code = "")
    (htag : py_startswith (py_strip code) "<?php" = false) :
    PHPParser.extract_metadata parse code =
      PHPParser.extract_metadata parse ("<?php\n" ++ code) := by
  unfold PHPParser.extract_metadata
  rw [if_neg hne, if_neg (php_prepend_nonempty code)]
  simp only [htag, php_prepend_startswith code, Bool.false_eq_true, if_false, if_true]

/-! ## Helper lemmas: HTML block merging -/

theorem html_fold_merge (parse : String → Except String TSNode) (blocks : List String)
    (acc : Metadata) :
    blocks.foldl (HTMLParser.merge_block parse) acc =
      { functions := acc.functions ++ (blocks.map (js_ok_functions parse)).flatten,
        «variables» := acc.variables ++ (blocks.map (js_ok_variables parse)).flatten,
        imports := acc.imports ++ (blocks.map (js_ok_imports parse)).flatten } := by
  induction blocks generalizing acc with
  | nil => simp
  | cons b bs ih =>
    rw [List.foldl_cons, ih]
    unfold HTMLParser.merge_block js_ok_functions js_ok_variables js_ok_imports
    cases hjs : JavascriptParser.extract_metadata parse b <;> simp [hjs]

/-- The HTML extractor is exactly: extract every inline block with the
JavaScript extractor (skipping failing blocks), concatenate the three
categories across blocks, deduplicate the merged variables. -/
theorem html_extract_eq (parse : String → Except String TSNode) (code : String) :
    HTMLParser.extract_metadata parse code =
      .ok { functions :=
              ((HTMLParser.extract_script_blocks code).map (js_ok_functions parse)).flatten,
            «variables» := dedup_vars
              (((HTMLParser.extract_script_blocks code).map (js_ok_variables parse)).flatten),
            imports :=
              ((HTMLParser.extract_script_blocks code).map (js_ok_imports parse)).flatten } := by
  unfold HTMLParser.extract_metadata
  rw [html_fold_merge]
  rfl

/-! ## Helper lemmas: formatting -/

theorem segs_eq_nil_iff (m : Metadata) :
    segs m = [] ↔ (m.functions = [] ∧ m.variables = [] ∧ m.imports = []) := by
  rcases m with ⟨fs, vs, ims⟩
  rcases fs <;> rcases vs <;> rcases ims <;> simp [segs]

theorem ast_append_ne_empty (s : String) : ¬ ("[AST] " ++ s) = "" := by
  intro h
  have hd := congrArg String.data h
  rw [String.data_append] at hd
  simp at hd

theorem format_summary_empty_iff (m : Metadata) :
    format_summary m = "" ↔ (m.functions = [] ∧ m.variables = [] ∧ m.imports = []) := by
  rw [← segs_eq_nil_iff]
  unfold format_summary
  split
  · simp_all
  · simp_all [ast_append_ne_empty]

/-! ## Helper lemmas: detection and dispatch -/

theorem detect_primary_unknown (filename code : String)
    (h : List.lookup (py_lower (splitext_ext filename)) ext_map = none) :
    (detect_language filename code).primary = "unknown" := by
  show (List.lookup (py_lower (splitext_ext filename)) ext_map).getD "unknown" = "unknown"
  rw [h]
  rfl

theorem detect_language_ext (f1 f2 code : String)
    (h : py_lower (splitext_ext f1) = py_lower (splitext_ext f2)) :
    detect_language f1 code = detect_language f2 code := by
  unfold detect_language
  rw [h]

theorem getParser_default (lang : String)
    (h : lang ∉ ["python", "javascript", "html", "php", "cpp", "c"]) :
    getParser lang = ParserKind.universal := by
  simp only [List.mem_cons, List.not_mem_nil, or_false, not_or] at h
  obtain ⟨h1, h2, h3, h4, h5, h6⟩ := h
  unfold getParser
  rw [if_neg h1, if_neg h2, if_neg h3, if_neg h4, if_neg h5, if_neg h6]

theorem scan_functions_params (lines : List (List Char)) :
    ∀ fr ∈ UniversalParser.scan_functions lines, fr.params = [] := by
  unfold UniversalParser.scan_functions
  refine @foldl_preserves (List Char) (List FunctionRecord)
    (fun fs => ∀ fr ∈ fs, fr.params = []) _ ?_ lines []
    (fun fr hfr => absurd hfr (List.not_mem_nil fr))
  intro s line hs
  show ∀ fr ∈ (match UniversalParser.func_name_of_line line with
    | some nm => s ++ [({ name := nm, params := [], start_line := none } : FunctionRecord)]
    | none => s), fr.params = []
  cases UniversalParser.func_name_of_line line with
  | none => exact hs
  | some nm =>
    intro fr hfr
    rcases List.mem_append.mp hfr with h | h
    · exact hs fr h
    · rw [List.mem_singleton.mp h]

theorem universal_params_empty (code : String) :
    ∀ fr ∈ (UniversalParser.extract_metadata code).functions, fr.params = [] := by
  intro fr hfr
  exact scan_functions_params _ fr (List.take_subset _ _ hfr)

theorem parse_ast_of_ok (g : Grammars) (code filename : String) (m : Metadata)
    (h : parse_ast_meta g code filename = .ok m) :
    parse_ast g code filename = format_summary m := by
  unfold parse_ast
  rw [h]

theorem parse_ast_of_err (g : Grammars) (code filename : String) (e : String)
    (h : parse_ast_meta g code filename = .error e) :
    parse_ast g code filename = "" := by
  unfold parse_ast
  rw [h]

/-! ## The claims -/

/-- C1: for every grammar bundle and every pair of input texts, `parse_ast`
(the public `summarize`) is a total Lean function — it terminates and
returns a string by construction — and its value is the formatted Metadata
Record when the detection/dispatch/extraction pipeline succeeds, and the
empty string whenever the pipeline raises internally. -/
theorem C1_total_and_absorbing :
    ∀ (g : Grammars) (code filename : String),
      (∃ m : Metadata, parse_ast_meta g code filename = .ok m ∧
          parse_ast g code filename = format_summary m) ∨
      (∃ e : String, parse_ast_meta g code filename = .error e ∧
          parse_ast g code filename = "") := by
  intro g code filename
  cases h : parse_ast_meta g code filename with
  | ok m => exact .inl ⟨m, rfl, parse_ast_of_ok g code filename m h⟩
  | error e => exact .inr ⟨e, rfl, parse_ast_of_err g code filename e h⟩

/-- C2: contrary to the claim, the JavaScript extractor never records any
variable — its second `elif node.type == "variable_declarator"` branch is
dead — so for every grammar collaborator and every input the `variables`
list of a successful JavaScript or HTML extraction is empty (and no output
for such files can contain a `Variables:` segment, falsifying Scenario C). -/
theorem C2_no_variables_recorded :
    (∀ (parse : String → Except String TSNode) (code : String) (m : Metadata),
      JavascriptParser.extract_metadata parse code = .ok m → m.variables = []) ∧
    (∀ (parse : String → Except String TSNode) (code : String) (m : Metadata),
      HTMLParser.extract_metadata parse code = .ok m → m.variables = []) :=
  ⟨js_extract_variables, html_extract_variables⟩

/-- C2 witness: a concrete successful extraction, with empty variables. -/
theorem C2_witness :
    JavascriptParser.extract_metadata leaf_parse "let y=2;" = .ok {} ∧
    ({} : Metadata).variables = [] :=
  ⟨rfl, C2_no_variables_recorded.1 leaf_parse "let y=2;" {} rfl⟩

/-- C3: every non-empty summary is `"[AST] "` followed by segments built
from at most the first 10 function names, 15 variables and 10 imports of
the extracted Metadata Record — the truncation (`.take`) happens at format
time in the orchestrator, on whatever the extractor over-produced. -/
theorem C3_format_caps :
    ∀ (g : Grammars) (code filename : String),
      parse_ast g code filename = "" ∨
      ∃ m : Metadata,
        parse_ast_meta g code filename = .ok m ∧
        ((m.functions.take 10).map (fun f => f.name)).length ≤ 10 ∧
        (m.variables.take 15).length ≤ 15 ∧
        (m.imports.take 10).length ≤ 10 ∧
        parse_ast g code filename =
          "[AST] " ++ String.intercalate " | "
            ((if m.functions.isEmpty then [] else
                ["Functions: " ++
                  String.intercalate ", " ((m.functions.take 10).map (fun f => f.name))]) ++
             (if m.variables.isEmpty then [] else
                ["Variables: " ++ String.intercalate ", " (m.variables.take 15)]) ++
             (if m.imports.isEmpty then [] else
                ["Imports: " ++ String.intercalate ", " (m.imports.take 10)])) ∧
        parse_ast g code filename ≠ "" := by
  intro g code filename
  cases h : parse_ast_meta g code filename with
  | error e => exact .inl (parse_ast_of_err g code filename e h)
  | ok m =>
    by_cases hs : segs m = []
    · refine .inl ?_
      rw [parse_ast_of_ok g code filename m h]
      unfold format_summary
      rw [if_pos hs]
    · refine .inr ⟨m, rfl, ?_, ?_, ?_, ?_, ?_⟩
      · rw [List.length_map]; exact List.length_take_le 10 m.functions
      · exact List.length_take_le 15 m.variables
      · exact List.length_take_le 10 m.imports
      · rw [parse_ast_of_ok g code filename m h]
        unfold format_summary
        rw [if_neg hs]
        rfl
      · rw [parse_ast_of_ok g code filename m h]
        unfold format_summary
        rw [if_neg hs]
        exact ast_append_ne_empty _

/-- C4: on empty or all-whitespace code, `parse_ast` returns `""` for every
filename, and each grammar-based extractor returns the empty Metadata
Record for every grammar collaborator (so without consulting it — even an
always-raising collaborator yields `.ok`). -/
theorem C4_blank_input :
    ∀ (g : Grammars) (code filename : String),
      (∀ c ∈ code.data, py_isspace c = true) →
      parse_ast g code filename = "" ∧
      PythonParser.extract_metadata g.pyParse code = .ok {} ∧
      JavascriptParser.extract_metadata g.jsParse code = .ok {} ∧
      PHPParser.extract_metadata g.phpParse code = .ok {} ∧
      CPPParser.extract_metadata g.cppParse code = .ok {} := by
  intro g code filename h
  have hstrip : py_strip code = "" := py_strip_of_all_ws code h
  refine ⟨?_, ?_, ?_, ?_, ?_⟩
  · unfold parse_ast parse_ast_meta
    rw [run_extract_ws g _ code h]
    rfl
  · simp [PythonParser.extract_metadata, hstrip]
  · simp [JavascriptParser.extract_metadata, hstrip]
  · simp [PHPParser.extract_metadata, hstrip]
  · simp [CPPParser.extract_metadata, hstrip]

/-- C4 witness: blank code under an always-raising grammar bundle. -/
theorem C4_witness :
    parse_ast err_grammars " \n\t" "m.py" = "" ∧
    PythonParser.extract_metadata err_grammars.pyParse " \n\t" = .ok {} :=
  ⟨(C4_blank_input err_grammars " \n\t" "m.py" (by decide)).1,
   (C4_blank_input err_grammars " \n\t" "m.py" (by decide)).2.1⟩

/-- C5 counterexample: the original caller content `"function foo() {}"` is
a single line (no newline), so `foo` sits on 1-based line 1 of the original
content; under the modelled PHP grammar collaborator the extractor reports
`start_line = 2` — the prepended `<?php` line shifts every reported line by
one, contradicting the claim that the synthetic prefix causes no shift. -/
theorem C5_counterexample :
    PHPParser.extract_metadata php_demo_parse "function foo() \x7b\x7d" =
      .ok { functions := [{ name := "foo", params := [], start_line := some 2 }],
            «variables» := [], imports := [] } ∧
    ("function foo() \x7b\x7d" : String).data.all (fun c => c ≠ '\n') = true :=
  ⟨rfl, by decide⟩

/-- C5 (amended): when the opening tag is missing, the extractor behaves
exactly as on the prepended text `"<?php\n" ++ code`, so the reported
`start_line` values are 1-based line numbers of the prepended text — one
greater than the construct's line in the original caller content. -/
theorem C5_prepend_line_shift :
    ∀ (parse : String → Except String TSNode) (code : String),
      ¬ py_strip code = "" →
      py_startswith (py_strip code) "<?php" = false →
      PHPParser.extract_metadata parse code =
        PHPParser.extract_metadata parse ("<?php\n" ++ code) :=
  php_extract_prepend

/-- C5 witness: a concrete tagless source under a concrete collaborator. -/
theorem C5_witness :
    PHPParser.extract_metadata err_parse "$x = 1;" =
      PHPParser.extract_metadata err_parse ("<?php\n" ++ "$x = 1;") :=
  C5_prepend_line_shift err_parse "$x = 1;" (by decide) (by decide)

/-- C6 counterexample: a script tag carrying a `src` attribute in second
position is captured as an inline block — its content is extracted and fed
to the web-script extractor, contradicting the claim that a src-carrying
tag contributes nothing. -/
theorem C6_counterexample :
    HTMLParser.extract_script_blocks
        "<script type=\"a\" src=\"x\">var q=1;</script>" = ["var q=1;"] :=
  rfl

/-- C6 (amended): the HTML extractor merges the per-block JavaScript
extractions of exactly the regex-captured blocks (deduplicating variables
after the merge, failing blocks contributing nothing); a script tag is
skipped only when `src` `=` immediately follows `<script` modulo
whitespace — i.e. when `src` is the first attribute — in which case the
scan falls through to the next character. -/
theorem C6_merge_and_src_first :
    (∀ (parse : String → Except String TSNode) (code : String),
      HTMLParser.extract_metadata parse code =
        .ok { functions :=
                ((HTMLParser.extract_script_blocks code).map (js_ok_functions parse)).flatten,
              «variables» := dedup_vars
                (((HTMLParser.extract_script_blocks code).map (js_ok_variables parse)).flatten),
              imports :=
                ((HTMLParser.extract_script_blocks code).map (js_ok_imports parse)).flatten }) ∧
    (∀ (fuel : Nat) (c : Char) (rest : List Char),
      starts_ci "<script".data (c :: rest) = true →
      HTMLParser.lookahead_src ((c :: rest).drop 7) = true →
      HTMLParser.scan_go (fuel + 1) (c :: rest) = HTMLParser.scan_go fuel rest) ∧
    HTMLParser.extract_script_blocks "<script src=\"x\">var q=1;</script>" = [] := by
  refine ⟨html_extract_eq, ?_, rfl⟩
  intro fuel c rest h1 h2
  have h2s : HTMLParser.lookahead_src (List.drop 6 rest) = true := by
    simpa using h2
  simp [HTMLParser.scan_go, h1, h2s]

/-- C6 witness: the src-first skip step at a concrete tag. -/
theorem C6_witness :
    HTMLParser.scan_go (13 + 1) ('<' :: ("script src=>".data)) =
      HTMLParser.scan_go 13 ("script src=>".data) :=
  C6_merge_and_src_first.2.1 13 '<' ("script src=>".data) (by decide) (by decide)

/-- C7 counterexample: a verbatim multi-line import statement puts a newline
into the summary, so the returned value is not a single line; under the
modelled Python collaborator for `"from m import (\n a)"`, the summary is
`"[AST] Imports: from m import (\n a)"`, which contains `'\n'`. -/
theorem C7_counterexample :
    parse_ast py_demo_grammars "from m import (\n a)" "m.py" =
      "[AST] Imports: from m import (\n a)" ∧
    '\n' ∈ (parse_ast py_demo_grammars "from m import (\n a)" "m.py").data :=
  ⟨rfl, by decide⟩

/-- C7 (amended): every summary is either `""` or `"[AST] "` followed by the
` | `-joined segments of exactly the non-empty categories (each segment a
`"Category: "`-prefixed `", "`-join of the capped entries); on successful
extraction the summary is `""` exactly when all three categories are empty
(and on internal failure it is `""` as well); the summary may span several
lines, since names and verbatim import texts are embedded unchanged. -/
theorem C7_output_shape :
    (∀ m : Metadata,
      (format_summary m = "" ↔ (m.functions = [] ∧ m.variables = [] ∧ m.imports = []))) ∧
    (∀ m : Metadata, segs m =
      (if m.functions = [] then [] else
        ["Functions: " ++
          String.intercalate ", " ((m.functions.take 10).map (fun f => f.name))]) ++
      (if m.variables = [] then [] else
        ["Variables: " ++ String.intercalate ", " (m.variables.take 15)]) ++
      (if m.imports = [] then [] else
        ["Imports: " ++ String.intercalate ", " (m.imports.take 10)])) ∧
    (∀ m : Metadata, format_summary m = "" ∨
      (format_summary m = "[AST] " ++ String.intercalate " | " (segs m) ∧ segs m ≠ [])) ∧
    (∀ (g : Grammars) (code filename : String),
      parse_ast g code filename = "" ∨
      ∃ m, parse_ast_meta g code filename = .ok m ∧
        parse_ast g code filename = format_summary m) := by
  refine ⟨format_summary_empty_iff, ?_, ?_, ?_⟩
  · intro m
    rcases m with ⟨fs, vs, ims⟩
    rcases fs <;> rcases vs <;> rcases ims <;> simp [segs]
  · intro m
    by_cases hs : segs m = []
    · exact .inl (by unfold format_summary; rw [if_pos hs])
    · exact .inr ⟨by unfold format_summary; rw [if_neg hs], hs⟩
  · intro g code filename
    cases h : parse_ast_meta g code filename with
    | ok m => exact .inr ⟨m, rfl, parse_ast_of_ok g code filename m h⟩
    | error e => exact .inl (parse_ast_of_err g code filename e h)

/-- C8: a filename whose lowercased extension is absent from the extension
table detects as `unknown` and dispatches to the universal fallback; any
language string outside the six mapped ones dispatches to the fallback; and
every Function Record the fallback produces has an empty parameter list. -/
theorem C8_unknown_routes_to_fallback :
    (∀ filename code : String,
      List.lookup (py_lower (splitext_ext filename)) ext_map = none →
      (detect_language filename code).primary = "unknown" ∧
      getParser (detect_language filename code).primary = ParserKind.universal) ∧
    (∀ lang : String, lang ∉ ["python", "javascript", "html", "php", "cpp", "c"] →
      getParser lang = ParserKind.universal) ∧
    (∀ code : String, ∀ fr ∈ (UniversalParser.extract_metadata code).functions,
      fr.params = []) := by
  refine ⟨?_, getParser_default, universal_params_empty⟩
  intro filename code h
  have hp := detect_primary_unknown filename code h
  exact ⟨hp, by rw [hp]; rfl⟩

/-- C8 witness: an unmapped extension and a concrete fallback record. -/
theorem C8_witness :
    (detect_language "p.unknownext" "import foo").primary = "unknown" ∧
    getParser (detect_language "p.unknownext" "import foo").primary = ParserKind.universal ∧
    getParser "ruby" = ParserKind.universal ∧
    (⟨"foo", [], none⟩ : FunctionRecord).params = [] :=
  ⟨(C8_unknown_routes_to_fallback.1 "p.unknownext" "import foo" (by decide)).1,
   (C8_unknown_routes_to_fallback.1 "p.unknownext" "import foo" (by decide)).2,
   C8_unknown_routes_to_fallback.2.1 "ruby" (by decide),
   C8_unknown_routes_to_fallback.2.2 "def foo(a): pass" ⟨"foo", [], none⟩ (by decide)⟩

/-- C9: the tree walker applies the visitor exactly along the pre-order
enumeration of the tree — root first, then each child's nodes left to
right — whose length is the number of nodes, so every node is visited
exactly once, parents before children. -/
theorem C9_walker_preorder :
    (∀ (σ : Type) (f : σ → TSNode → σ) (s : σ) (n : TSNode),
      traverse_tree f n s = (preorder n).foldl f s) ∧
    (∀ n : TSNode, (preorder n).length = node_count n) ∧
    (∀ (t x : String) (r : Nat) (cs : List TSNode),
      preorder (TSNode.node t x r cs) = TSNode.node t x r cs :: preorder_list cs) ∧
    (∀ (c : TSNode) (cs : List TSNode),
      preorder_list (c :: cs) = preorder c ++ preorder_list cs) ∧
    preorder_list [] = [] :=
  ⟨fun _ f s n => traverse_tree_eq_foldl f n s, preorder_length,
   fun _ _ _ _ => rfl, fun _ _ => rfl, rfl⟩

/-- C10: the filename influences the summary only through its lowercased
extension — any two filenames with the same lowercased extension produce
identical output for every code text and grammar bundle. -/
theorem C10_ext_determines_output :
    ∀ (g : Grammars) (code f1 f2 : String),
      py_lower (splitext_ext f1) = py_lower (splitext_ext f2) →
      parse_ast g code f1 = parse_ast g code f2 := by
  intro g code f1 f2 h
  unfold parse_ast parse_ast_meta
  rw [detect_language_ext f1 f2 code h]

/-- C10 witness: a nested upper-case `.PY` path versus a bare `.py` name. -/
theorem C10_witness :
    parse_ast err_grammars "x=1" "src/app.PY" = parse_ast err_grammars "x=1" "b.py" :=
  C10_ext_determines_output err_grammars "x=1" "src/app.PY" "b.py" (by decide)

/-! ## Fuel adequacy of the script-block scanner

`scan_go` consumes at least one character per step, so the initial fuel
`cs.length` never runs out; the lemmas below certify that any fuel of at
least the input length gives the same result, i.e. the fuel is a
termination device only and the scanner denotes the unbounded
`re.findall` scan. -/

theorem find_close_length (cs : List Char) :
    ∀ (acc content rest : List Char),
      HTMLParser.find_close cs acc = some (content, rest) → rest.length ≤ cs.length := by
  induction cs with
  | nil => intro acc content rest h; cases h
  | cons c cs' ih =>
    intro acc content rest h
    unfold HTMLParser.find_close at h
    split at h
    · cases h
      rw [List.length_drop]
      omega
    · exact le_trans (ih (c :: acc) content rest h) (by rw [List.length_cons]; omega)

theorem split_first_gt_length (cs rest : List Char)
    (h : HTMLParser.split_first_gt cs = some rest) : rest.length < cs.length := by
  unfold HTMLParser.split_first_gt at h
  cases hd : List.dropWhile (fun c => c ≠ '>') cs with
  | nil => rw [hd] at h; cases h
  | cons d t =>
    rw [hd] at h
    cases h
    have hle : (List.dropWhile (fun c => c ≠ '>') cs).length ≤ cs.length :=
      (List.dropWhile_suffix (fun c => c ≠ '>')).sublist.length_le
    rw [hd, List.length_cons] at hle
    omega

theorem scan_go_fuel :
    ∀ (f1 f2 : Nat) (cs : List Char), cs.length ≤ f1 → cs.length ≤ f2 →
      HTMLParser.scan_go f1 cs = HTMLParser.scan_go f2 cs := by
  intro f1
  induction f1 with
  | zero =>
    intro f2 cs h1 _
    have hnil : cs = [] := List.length_eq_zero.mp (Nat.le_zero.mp h1)
    subst hnil
    cases f2 <;> rfl
  | succ f1 ih =>
    intro f2 cs h1 h2
    rcases cs with _ | ⟨c, rest⟩
    · cases f2 <;> rfl
    · rcases f2 with _ | f2
      · rw [List.length_cons] at h2; omega
      · rw [List.length_cons] at h1 h2
        have hrest1 : rest.length ≤ f1 := by omega
        have hrest2 : rest.length ≤ f2 := by omega
        show HTMLParser.scan_go (f1 + 1) (c :: rest) = HTMLParser.scan_go (f2 + 1) (c :: rest)
        rw [HTMLParser.scan_go.eq_3, HTMLParser.scan_go.eq_3]
        split
        · split
          · exact ih f2 rest hrest1 hrest2
          · split
            · exact ih f2 rest hrest1 hrest2
            · rename_i afterGt hs
              split
              · exact ih f2 rest hrest1 hrest2
              · rename_i content afterClose hf
                have l1 : afterClose.length ≤ afterGt.length :=
                  find_close_length afterGt [] content afterClose hf
                have l2 : afterGt.length < (List.drop 7 (c :: rest)).length :=
                  split_first_gt_length _ _ hs
                rw [List.length_drop, List.length_cons] at l2
                rw [ih f2 afterClose (by omega) (by omega)]
        · exact ih f2 rest hrest1 hrest2
